import Mathlib

/-!
Verification of the tree-transformer / visitor framework in `lark/visitors.py`.

The embedding models the framework over a value type `Value` that covers the
tree nodes the framework traverses, opaque leaf payloads, and Python lists
(which the top-down interpreter's default handler returns).  Python exceptions
are modelled by the `Exc` type and fallible code returns `Except Exc`.
-/

/-- Modelled from the spec: the Node abstraction from the external `lark.tree`
collaborator (not under the sources verified here).  A node carries a tag
(`data`), an ordered sequence of children (each a nested node or an opaque
leaf value) and an attached metadata record (`meta`, opaque, modelled as a
natural number).  `leaf` models an opaque non-node value and `vlist` a Python
list value (the top-down interpreter's default handler returns lists). -/
inductive Value : Type where
  | leaf (n : Nat)
  | vlist (vs : List Value)
  | tree (data : String) (children : List Value) (meta : Nat)
deriving Repr

mutual

def decEqValue : (a b : Value) → Decidable (a = b)
  | .leaf a, .leaf b =>
    match Nat.decEq a b with
    | isTrue h => isTrue (by rw [h])
    | isFalse h => isFalse (by intro hh; cases hh; exact h rfl)
  | .vlist as, .vlist bs =>
    match decEqListValue as bs with
    | isTrue h => isTrue (by rw [h])
    | isFalse h => isFalse (by intro hh; cases hh; exact h rfl)
  | .tree d cs m, .tree e ds n =>
    match String.decEq d e, decEqListValue cs ds, Nat.decEq m n with
    | isTrue h1, isTrue h2, isTrue h3 => isTrue (by rw [h1, h2, h3])
    | isFalse h1, _, _ => isFalse (by intro hh; cases hh; exact h1 rfl)
    | _, isFalse h2, _ => isFalse (by intro hh; cases hh; exact h2 rfl)
    | _, _, isFalse h3 => isFalse (by intro hh; cases hh; exact h3 rfl)
  | .leaf _, .vlist _ => isFalse (fun h => Value.noConfusion h)
  | .leaf _, .tree _ _ _ => isFalse (fun h => Value.noConfusion h)
  | .vlist _, .leaf _ => isFalse (fun h => Value.noConfusion h)
  | .vlist _, .tree _ _ _ => isFalse (fun h => Value.noConfusion h)
  | .tree _ _ _, .leaf _ => isFalse (fun h => Value.noConfusion h)
  | .tree _ _ _, .vlist _ => isFalse (fun h => Value.noConfusion h)

def decEqListValue : (as bs : List Value) → Decidable (as = bs)
  | [], [] => isTrue rfl
  | [], _ :: _ => isFalse (fun h => List.noConfusion h)
  | _ :: _, [] => isFalse (fun h => List.noConfusion h)
  | a :: as, b :: bs =>
    match decEqValue a b, decEqListValue as bs with
    | isTrue h1, isTrue h2 => isTrue (by rw [h1, h2])
    | isFalse h1, _ => isFalse (by intro hh; cases hh; exact h1 rfl)
    | _, isFalse h2 => isFalse (by intro hh; cases hh; exact h2 rfl)

end

instance : DecidableEq Value := decEqValue

deriving instance DecidableEq for Except

/-- Models `isinstance(c, Tree)`. -/
def Value.isTree : Value → Bool
  | .tree _ _ _ => true
  | _ => false

/-- Python exceptions raised by the framework or by user handlers.
`discard` is the `Discard` exception from `visitors.py`; `user n` stands for
an arbitrary exception raised inside a user handler. -/
inductive Exc : Type where
  | discard
  | attrError
  | typeError
  | valueError
  | assertionError
  | noFuel
  | user (n : Nat)
deriving Repr, DecidableEq

/-- A positional argument of a Python call as made by the dispatcher:
either a single child value (`f(*children)` passes each child separately),
the whole children list (`f(children)`), or the metadata record
(`f(children, meta)` passes it after the list). -/
inductive Arg : Type where
  | val (v : Value)
  | vals (vs : List Value)
  | md (m : Nat)
deriving Repr, DecidableEq

/-- A tag-named handler attribute found on a `Transformer` holder: the flags
`getattr(f, 'meta', False)` / `getattr(f, 'inline', False)` (absent flags read
as `false`) together with the underlying callable, which receives a list of
positional arguments and may raise. -/
structure Handler : Type where
  hmeta : Bool
  hinline : Bool
  call : List Arg → Except Exc Value

/-- A `Transformer` holder object: `attrs` is `getattr(self, data)` restricted
to tag-named handler methods (`none` models the `AttributeError` branch), and
`dflt` is its `__default__` method (overridable). -/
structure Holder : Type where
  attrs : String → Option Handler
  dflt : String → List Value → Nat → Except Exc Value

/-- Models `Transformer.__default__`: reconstructs `Tree(data, children, meta)`. -/
def defaultUserfunc (data : String) (children : List Value) (meta : Nat) :
    Except Exc Value :=
  .ok (.tree data children meta)

/-- Models `Transformer._call_userfunc(self, data, children, meta)`: look up the tag
on the holder; on a miss call `__default__(data, children, meta)`; otherwise
call the handler following its `meta` / `inline` flags (`meta` checked
first). -/
def callUserfunc (h : Holder) (data : String) (children : List Value)
    (meta : Nat) : Except Exc Value :=
  match h.attrs data with
  | none => h.dflt data children meta
  | some f =>
    if f.hmeta then f.call [.vals children, .md meta]
    else if f.hinline then f.call (children.map .val)
    else f.call [.vals children]

mutual

/-- Models `Transformer._transform_tree`: reduce the children, then dispatch on the
node's tag with the reduced children and the node's metadata.  Called only on
`Tree` instances; on a non-tree value the attribute accesses
`tree.children` / `tree.data` would raise. -/
def transformTree (h : Holder) : Value → Except Exc Value
  | .leaf _ => .error .attrError
  | .vlist _ => .error .attrError
  | .tree d cs m =>
    match transformChildren h cs with
    | .ok rc => callUserfunc h d rc m
    | .error e => .error e

/-- Models `Transformer._transform_children` (forced by `list(...)`): each child that
is a `Tree` is recursively transformed, leaves pass through unchanged; a child
whose transformation raises `Discard` is skipped; any other exception
propagates. -/
def transformChildren (h : Holder) : List Value → Except Exc (List Value)
  | [] => .ok []
  | c :: cs =>
    match (if c.isTree then transformTree h c else .ok c) with
    | .ok v =>
      match transformChildren h cs with
      | .ok vs => .ok (v :: vs)
      | .error e => .error e
    | .error .discard => transformChildren h cs
    | .error e => .error e

end

/-- Models `Transformer.transform`. -/
def transform (h : Holder) (tree : Value) : Except Exc Value :=
  transformTree h tree

mutual

/-- Instrumented copy of `Transformer._transform_tree` that additionally
records, in order, the original subtree at each invocation of
`_call_userfunc` (the event is recorded at call time, whether or not the
handler raises). -/
def transformTreeT (h : Holder) : Value → Except Exc Value × List Value
  | .leaf _ => (.error .attrError, [])
  | .vlist _ => (.error .attrError, [])
  | .tree d cs m =>
    match transformChildrenT h cs with
    | (.ok rc, tr) => (callUserfunc h d rc m, tr ++ [.tree d cs m])
    | (.error e, tr) => (.error e, tr)

/-- Instrumented copy of `Transformer._transform_children`. -/
def transformChildrenT (h : Holder) :
    List Value → Except Exc (List Value) × List Value
  | [] => (.ok [], [])
  | c :: cs =>
    match (if c.isTree then transformTreeT h c else (.ok c, [])) with
    | (.ok v, tr) =>
      match transformChildrenT h cs with
      | (.ok vs, tr2) => (.ok (v :: vs), tr ++ tr2)
      | (.error e, tr2) => (.error e, tr ++ tr2)
    | (.error .discard, tr) =>
      match transformChildrenT h cs with
      | (r, tr2) => (r, tr ++ tr2)
    | (.error e, tr) => (.error e, tr)

end

mutual

/-- The post-order listing of the `Tree` nodes of a value: for a tree, the
nodes of each child in order, then the node itself; leaves contribute
nothing. -/
def postOrder : Value → List Value
  | .leaf _ => []
  | .vlist _ => []
  | .tree d cs m => postOrderList cs ++ [.tree d cs m]

def postOrderList : List Value → List Value
  | [] => []
  | c :: cs => postOrder c ++ postOrderList cs

end

mutual

/-- Models `Transformer_InPlaceRecursive._transform_tree`: assigns the reduced
children back onto the node (`tree.children = list(...)`) before dispatching
on it.  The model returns both the handler's result and the mutated node
(the original node with its children field now holding the reduced
values). -/
def iprTransformTree (h : Holder) : Value → Except Exc (Value × Value)
  | .leaf _ => .error .attrError
  | .vlist _ => .error .attrError
  | .tree d cs m =>
    match iprTransformChildren h cs with
    | .ok rc =>
      match callUserfunc h d rc m with
      | .ok r => .ok (r, .tree d rc m)
      | .error e => .error e
    | .error e => .error e

/-- Models `Transformer._transform_children` as inherited by
`Transformer_InPlaceRecursive`: the dynamic call `self._transform_tree(c)`
resolves to the overriding in-place method, whose return value (not the
mutated child object) is yielded into the reduced sequence. -/
def iprTransformChildren (h : Holder) : List Value → Except Exc (List Value)
  | [] => .ok []
  | c :: cs =>
    match (if c.isTree then (iprTransformTree h c).map Prod.fst else .ok c) with
    | .ok v =>
      match iprTransformChildren h cs with
      | .ok vs => .ok (v :: vs)
      | .error e => .error e
    | .error .discard => iprTransformChildren h cs
    | .error e => .error e

end

/-- Models `Transformer_InPlaceRecursive.transform` (inherited `transform`): result
component together with the mutated root. -/
def iprTransform (h : Holder) (tree : Value) : Except Exc (Value × Value) :=
  iprTransformTree h tree

/-- Models `TransformerChain`: holds the `transform` operations of its stages in
order. -/
structure TransformerChain : Type where
  transformers : List (Value → Except Exc Value)

/-- Models `TransformerChain.transform`: `for t in self.transformers: tree =
t.transform(tree)`, each stage feeding the next, exceptions propagating. -/
def TransformerChain.transform (c : TransformerChain) (tree : Value) :
    Except Exc Value :=
  go c.transformers tree
where
  go : List (Value → Except Exc Value) → Value → Except Exc Value
    | [], t => .ok t
    | f :: fs, t =>
      match f t with
      | .ok r => go fs r
      | .error e => .error e

/-- Models `Transformer.__mul__`: `TransformerChain(self, other)`. -/
def transformerMul (self other : Value → Except Exc Value) :
    TransformerChain :=
  ⟨[self, other]⟩

/-- Models `TransformerChain.__mul__`: `TransformerChain(*self.transformers +
(other,))`. -/
def TransformerChain.mul (c : TransformerChain)
    (other : Value → Except Exc Value) : TransformerChain :=
  ⟨c.transformers ++ [other]⟩

/-- A `Transformer` subclass instance with no tag-named handler methods and
the inherited `__default__`. -/
def emptyTransformer : Holder :=
  ⟨fun _ => none, defaultUserfunc⟩

-- The top-down interpreter.  Handlers are user methods on the holder: they
-- receive the interpreter's own `visit` operation (so they can call
-- `self.visit` / `self.visit_children` — or not), the node, and thread the
-- holder's mutable state of type `σ`.  Recursion through user handlers is
-- bounded by explicit fuel; `Exc.noFuel` marks exhaustion and stands for a
-- Python `RecursionError`, which no terminating run produces.

/-- A tag-named handler method on an `Interpreter` holder. -/
structure IHandler (σ : Type) : Type where
  run : (Value → σ → Except Exc (Value × σ)) → Value → σ →
    Except Exc (Value × σ)

/-- An `Interpreter` holder object: `attrs` is the tag-named methods its
class defines (`none` models the `__getattr__` fallback to `__default__`). -/
structure Interp (σ : Type) : Type where
  attrs : String → Option (IHandler σ)

/-- The list comprehension inside `Interpreter.visit_children`, over an
arbitrary `visit` operation: children that are `Tree`s are visited
left-to-right (state threading through), leaves pass through unchanged. -/
def visitChildrenGo {σ : Type} (v : Value → σ → Except Exc (Value × σ)) :
    List Value → σ → Except Exc (List Value × σ)
  | [], s => .ok ([], s)
  | c :: cs, s =>
    match (if c.isTree then v c s else .ok (c, s)) with
    | .ok (r, s1) =>
      match visitChildrenGo v cs s1 with
      | .ok (rs, s2) => .ok (r :: rs, s2)
      | .error e => .error e
    | .error e => .error e

/-- Models `Interpreter.visit_children(self, tree)` over an arbitrary `visit`
operation; on a non-tree argument the access `tree.children` would raise. -/
def visitChildrenWith {σ : Type} (v : Value → σ → Except Exc (Value × σ)) :
    Value → σ → Except Exc (List Value × σ)
  | .tree _ cs _, s => visitChildrenGo v cs s
  | _, _ => .error .attrError

/-- Models `Interpreter.visit(self, tree)`: `getattr(self, tree.data)(tree)`.  The
class's `__getattr__` makes the lookup total: a miss yields `__default__`,
which returns `self.visit_children(tree)` (a list).  User handlers receive
`visit` at the remaining fuel. -/
def Interp.visit {σ : Type} (I : Interp σ) :
    Nat → Value → σ → Except Exc (Value × σ)
  | 0, _, _ => .error .noFuel
  | n + 1, t, s =>
    match t with
    | .tree d _ _ =>
      match I.attrs d with
      | some h => h.run (I.visit n) t s
      | none =>
        match visitChildrenWith (I.visit n) t s with
        | .ok (rs, s1) => .ok (.vlist rs, s1)
        | .error e => .error e
    | _ => .error .attrError

/-- Models `Interpreter.visit_children` as exposed on the holder. -/
def Interp.visitChildren {σ : Type} (I : Interp σ) (fuel : Nat) (t : Value)
    (s : σ) : Except Exc (List Value × σ) :=
  visitChildrenWith (I.visit fuel) t s

-- The handler-shape decorator (`visitor_args`) and its class-level
-- application (`Transformer._apply_decorator`).

/-- A Python function object as the decorator machinery sees it: either some
underlying user function (identified by an id) or the wrapper produced by
`_visitor_args_func_dec`, which records the `inline` / `meta` flags. -/
inductive Method : Type where
  | base (id : Nat)
  | wrapped (inl mt : Bool) (m : Method)
deriving Repr, DecidableEq

/-- Models `_visitor_args_func_dec(func, inline, meta)`: `assert not (inline and
meta)`, then wrap `func` (the wrapping itself delegates to
`smart_decorator`, modelled from the spec as an out-of-scope capability that
produces a wrapper) and set `f.inline` and `f.meta` on the wrapper. -/
def visitorArgsFuncDec (func : Method) (inl mt : Bool) : Except Exc Method :=
  if inl && mt then .error .assertionError
  else .ok (.wrapped inl mt func)

/-- Models `visitor_args(inline, meta)`: raises `ValueError` at once when both
flags are requested; otherwise returns the decorator `_visitor_args_dec`,
modelled by the validated flag pair it closes over. -/
def visitorArgs (inl mt : Bool) : Except Exc (Bool × Bool) :=
  if inl && mt then .error .valueError
  else .ok (inl, mt)

/-- A Python class as the class-level decorator sees it: the `(name, value)`
members the class defines directly (`own`) and the resolved members
contributed by the classes in `mro[1:]` (`baseMembers`, first match wins on
lookup). -/
structure PyClass : Type where
  own : List (String × Method)
  baseMembers : List (String × Method)
deriving Repr, DecidableEq

/-- Models `libmembers`: the set of NAMES (only names, not values) of members of
every class in `mro[1:]`. -/
def PyClass.baseNames (c : PyClass) : List String :=
  c.baseMembers.map Prod.fst

/-- Models `name.startswith('_')`: the prefix is a single character, so this is a
first-character test. -/
def startsWithUnderscore (n : String) : Bool :=
  match n.data with
  | [] => false
  | ch :: _ => ch == '_'

/-- Models `Transformer._apply_decorator(decorator)` (the class-level path of
`_apply_decorator(obj, decorator)`): iterate `getmembers(cls)`, skip every
name starting with an underscore and every name in `libmembers`, and
`setattr` the decorated value for the rest.  Every inherited member's name
occurs in `libmembers`, so only directly defined members can be rebound;
the model therefore rebinds within `own`. -/
def clsApplyDecorator (dec : Method → Method) (c : PyClass) : PyClass :=
  ⟨c.own.map (fun p =>
      if startsWithUnderscore p.1 || c.baseNames.contains p.1 then p
      else (p.1, dec p.2)),
    c.baseMembers⟩

/-- The class-level decoration rule as the specification words it: wrap
exactly the methods the class defines directly whose names do not start
with the internal-use prefix and that are not present with an identical
definition in an ancestor. -/
def clsApplyDecoratorSpec (dec : Method → Method) (c : PyClass) : PyClass :=
  ⟨c.own.map (fun p =>
      if startsWithUnderscore p.1 || c.baseMembers.contains p then p
      else (p.1, dec p.2)),
    c.baseMembers⟩

/-- Python attribute resolution on a class: a directly defined member
shadows inherited ones; otherwise the first matching inherited member along
the MRO. -/
def PyClass.getattrM (c : PyClass) (n : String) : Option Method :=
  match c.own.find? (fun p => p.1 == n) with
  | some p => some p.2
  | none => (c.baseMembers.find? (fun p => p.1 == n)).map Prod.snd

-- Concrete fixtures used to instantiate the theorems below.

/-- Encode a positional argument as a value, so a fixture handler can report
exactly how it was called. -/
def argVal : Arg → Value
  | .val v => v
  | .vals vs => .vlist vs
  | .md m => .leaf m

/-- A fixture handler body that returns the list of positional arguments it
received. -/
def argObserver : List Arg → Except Exc Value :=
  fun args => .ok (.vlist (args.map argVal))

/-- A fixture `Transformer` holder: the handler for tag `B` returns `leaf 7`,
the handler for tag `C` raises `Discard`, and all other tags fall back to
`__default__`. -/
def discardHolder : Holder :=
  ⟨fun d =>
    if d == "B" then some ⟨false, false, fun _ => .ok (.leaf 7)⟩
    else if d == "C" then some ⟨false, false, fun _ => .error .discard⟩
    else none,
  defaultUserfunc⟩

/-- A fixture `Transformer` holder whose handler for tag `B` returns a brand
new tree, exercising the rule that a handler's result is inserted as-is and
never dispatched again. -/
def treeReturnHolder : Holder :=
  ⟨fun d =>
    if d == "B" then
      some ⟨false, false, fun _ => .ok (.tree "B" [.tree "B" [] 9] 9)⟩
    else none,
  defaultUserfunc⟩

/-- A fixture `Interpreter` holder with no tag-named methods at all. -/
def emptyInterp : Interp Unit := ⟨fun _ => none⟩

/-- The fixture tree `X(Y(), Z())` for the top-down laziness scenario. -/
def xTree : Value := .tree "X" [.tree "Y" [] 0, .tree "Z" [] 0] 0

/-- A fixture handler for tag `X` that calls `self.visit_children` on the
node and returns only the first result, ignoring the rest. -/
def xChildrenHandler : IHandler Nat :=
  ⟨fun v t s =>
    match visitChildrenWith v t s with
    | .ok (rs, s1) => .ok (rs.headD (.leaf 99), s1)
    | .error e => .error e⟩

/-- A fixture handler for tag `X` that requests descent only into the node's
first child (it calls `self.visit` on that child alone). -/
def xFirstChildHandler : IHandler Nat :=
  ⟨fun v t s =>
    match t with
    | .tree _ (y :: _) _ => v y s
    | _ => .error .attrError⟩

/-- A fixture handler for tag `Y`: returns `leaf 1`, touching no state. -/
def yHandler : IHandler Nat := ⟨fun _ _ s => .ok (.leaf 1, s)⟩

/-- A fixture handler for tag `Z`: the only state write in the fixtures — it
increments the Z-invocation counter — and returns `leaf 2`. -/
def zHandler : IHandler Nat := ⟨fun _ _ s => .ok (.leaf 2, s + 1)⟩

/-- A fixture `Interpreter` holder over a Z-invocation counter whose `X`
handler calls `visit_children` and keeps only the first result. -/
def cntInterp : Interp Nat :=
  ⟨fun d =>
    if d == "X" then some xChildrenHandler
    else if d == "Y" then some yHandler
    else if d == "Z" then some zHandler
    else none⟩

/-- Like `cntInterp`, but the `X` handler visits only its first child. -/
def lazyInterp : Interp Nat :=
  ⟨fun d =>
    if d == "X" then some xFirstChildHandler
    else if d == "Y" then some yHandler
    else if d == "Z" then some zHandler
    else none⟩

/-- The decorator for the default shape, as a pure function on methods (its
`assert` cannot fire). -/
def wrapSeq : Method → Method := fun m => .wrapped false false m

/-- A fixture subclass for class-level decoration: its base (an already
decorated transformer subclass, plus the framework base) contributes a
wrapped `foo`, a wrapped `bar` and the framework method `transform`; the
subclass itself overrides `foo` with a new, different definition. -/
def subClass : PyClass :=
  ⟨[("foo", .base 2)],
    [("foo", .wrapped false false (.base 1)),
      ("bar", .wrapped false false (.base 0)),
      ("transform", .base 10)]⟩

-- Theorems

/-- C1: Dispatcher contract: for every holder, tag, already-reduced children
sequence and metadata record, `_call_userfunc` returns the holder's
`__default__` applied to `(tag, children, meta)` when the holder has no
attribute named exactly the tag; when such a handler exists and its `meta`
flag is set it returns `handler(children, meta)`; when its `inline` flag is
set (and `meta` is not) it returns the handler applied to each child as a
separate positional argument; otherwise it returns `handler(children)` with
the children as one sequence argument. -/
theorem C1_dispatcher_contract (h : Holder) (d : String) (cs : List Value)
    (m : Nat) :
    (h.attrs d = none → callUserfunc h d cs m = h.dflt d cs m) ∧
    (∀ f : Handler, h.attrs d = some f → f.hmeta = true →
      callUserfunc h d cs m = f.call [.vals cs, .md m]) ∧
    (∀ f : Handler, h.attrs d = some f → f.hmeta = false → f.hinline = true →
      callUserfunc h d cs m = f.call (cs.map .val)) ∧
    (∀ f : Handler, h.attrs d = some f → f.hmeta = false →
      f.hinline = false → callUserfunc h d cs m = f.call [.vals cs]) := by
  refine ⟨fun hn => ?_, fun f hf hm => ?_, fun f hf hm hi => ?_,
    fun f hf hm hi => ?_⟩
  · simp [callUserfunc, hn]
  · simp [callUserfunc, hf, hm]
  · simp [callUserfunc, hf, hm, hi]
  · simp [callUserfunc, hf, hm, hi]

theorem C1_dispatcher_contract_witness :
    callUserfunc emptyTransformer "p" [Value.leaf 1] 2 =
      .ok (.tree "p" [.leaf 1] 2) ∧
    callUserfunc ⟨fun _ => some ⟨true, false, argObserver⟩, defaultUserfunc⟩
      "p" [Value.leaf 1] 2 = .ok (.vlist [.vlist [.leaf 1], .leaf 2]) ∧
    callUserfunc ⟨fun _ => some ⟨false, true, argObserver⟩, defaultUserfunc⟩
      "p" [Value.leaf 1] 2 = .ok (.vlist [.leaf 1]) ∧
    callUserfunc ⟨fun _ => some ⟨false, false, argObserver⟩, defaultUserfunc⟩
      "p" [Value.leaf 1] 2 = .ok (.vlist [.vlist [.leaf 1]]) :=
  ⟨((C1_dispatcher_contract emptyTransformer "p" [Value.leaf 1] 2).1
      rfl).trans rfl,
    ((C1_dispatcher_contract _ "p" [Value.leaf 1] 2).2.1 _ rfl rfl).trans rfl,
    ((C1_dispatcher_contract _ "p" [Value.leaf 1] 2).2.2.1 _ rfl rfl
      rfl).trans rfl,
    ((C1_dispatcher_contract _ "p" [Value.leaf 1] 2).2.2.2 _ rfl rfl
      rfl).trans rfl⟩

/-- C4: Chain composition semantics: `chain(t1, t2).transform(T)` equals
`t2.transform(t1.transform(T))`; in general a chain applies its stages left
to right, feeding each result to the next stage, and composing a chain with
a further transformer appends it to the end of the sequence. -/
theorem C4_chain_composition :
    (∀ (t1 t2 : Value → Except Exc Value) (tr : Value),
      (transformerMul t1 t2).transform tr = (t1 tr).bind t2) ∧
    (∀ (f : Value → Except Exc Value) (fs : List (Value → Except Exc Value))
      (tr : Value),
      TransformerChain.transform ⟨f :: fs⟩ tr =
        (f tr).bind (fun r => TransformerChain.transform ⟨fs⟩ r)) ∧
    (∀ (c : TransformerChain) (g : Value → Except Exc Value),
      (c.mul g).transformers = c.transformers ++ [g]) := by
  refine ⟨fun t1 t2 tr => ?_, fun f fs tr => ?_, fun c g => rfl⟩
  · cases h1 : t1 tr with
    | ok r =>
      cases h2 : t2 r <;>
        simp [transformerMul, TransformerChain.transform,
          TransformerChain.transform.go, h1, h2, Except.bind]
    | error e =>
      simp [transformerMul, TransformerChain.transform,
        TransformerChain.transform.go, h1, Except.bind]
  · cases h1 : f tr <;>
      simp [TransformerChain.transform, TransformerChain.transform.go, h1,
        Except.bind]

/-- C9: Configuration error on incompatible shapes: requesting both
`inline=True` and `meta=True` fails at decoration time (`visitor_args`
raises `ValueError` when constructed, and the underlying function decorator
asserts the same); any single flag or neither flag decorates successfully;
and the combination never surfaces as an error during traversal — the
dispatcher calls a handler carrying both flags by the `meta` convention
without raising. -/
theorem C9_incompatible_shape_flags :
    visitorArgs true true = .error .valueError ∧
    visitorArgs true false = .ok (true, false) ∧
    visitorArgs false true = .ok (false, true) ∧
    visitorArgs false false = .ok (false, false) ∧
    (∀ func : Method, visitorArgsFuncDec func true true =
      .error .assertionError) ∧
    (∀ func : Method, visitorArgsFuncDec func true false =
      .ok (.wrapped true false func)) ∧
    (∀ func : Method, visitorArgsFuncDec func false true =
      .ok (.wrapped false true func)) ∧
    (∀ func : Method, visitorArgsFuncDec func false false =
      .ok (.wrapped false false func)) ∧
    (∀ (h : Holder) (d : String) (f : Handler) (cs : List Value) (m : Nat),
      h.attrs d = some f → f.hmeta = true → f.hinline = true →
      callUserfunc h d cs m = f.call [.vals cs, .md m]) := by
  refine ⟨rfl, rfl, rfl, rfl, fun func => rfl, fun func => rfl,
    fun func => rfl, fun func => rfl, fun h d f cs m hf hm hi => ?_⟩
  simp [callUserfunc, hf, hm]

theorem C9_incompatible_shape_flags_witness :
    callUserfunc ⟨fun _ => some ⟨true, true, argObserver⟩, defaultUserfunc⟩
      "p" [Value.leaf 3] 4 = .ok (.vlist [.vlist [.leaf 3], .leaf 4]) :=
  ((C9_incompatible_shape_flags.2.2.2.2.2.2.2.2 _ "p" _ [Value.leaf 3] 4
    rfl rfl rfl).trans rfl)

mutual

theorem transformTree_empty : ∀ t : Value, t.isTree = true →
    transformTree emptyTransformer t = .ok t
  | .leaf _, ht => by simp [Value.isTree] at ht
  | .vlist _, ht => by simp [Value.isTree] at ht
  | .tree d cs m, _ => by
    simp only [transformTree, transformChildren_empty cs]
    simp [callUserfunc, emptyTransformer, defaultUserfunc]

theorem transformChildren_empty : ∀ cs : List Value,
    transformChildren emptyTransformer cs = .ok cs
  | [] => by simp [transformChildren]
  | c :: cs => by
    cases hct : c.isTree with
    | false => simp [transformChildren, hct, transformChildren_empty cs]
    | true =>
      simp [transformChildren, hct, transformTree_empty c hct,
        transformChildren_empty cs]

end

/-- C2: Identity of the default copy transform: for every well-formed tree,
a `Transformer` instance with no tag-named handler methods satisfies
`transform(T) = T` — same tag at every node, same child order, same
metadata, leaves passed through unchanged. -/
theorem C2_default_transform_identity (t : Value) (ht : t.isTree = true) :
    transform emptyTransformer t = .ok t := by
  simpa [transform] using transformTree_empty t ht

theorem C2_default_transform_identity_witness :
    Value.isTree (.tree "a" [.leaf 5, .tree "b" [.leaf 6] 7] 8) = true ∧
    transform emptyTransformer
      (.tree "a" [.leaf 5, .tree "b" [.leaf 6] 7] 8) =
      .ok (.tree "a" [.leaf 5, .tree "b" [.leaf 6] 7] 8) :=
  ⟨rfl, C2_default_transform_identity _ rfl⟩

/-- C3: Discard semantics of the copy transform: a child whose reduction
raises `Discard` is omitted from the reduced children sequence passed to the
parent's handler, the remaining children keeping their original relative
order; whereas a `Discard` raised by the dispatch on the root node itself
propagates out of `transform(root)` uncaught. -/
theorem C3_discard_semantics (h : Holder) (c : Value) (pre post : List Value)
    (hdisc : transformTree h c = .error .discard) (hct : c.isTree = true) :
    transformChildren h (pre ++ c :: post) =
      transformChildren h (pre ++ post) ∧
    (∀ (d : String) (cs rc : List Value) (m : Nat),
      transformChildren h cs = .ok rc →
      callUserfunc h d rc m = .error .discard →
      transform h (.tree d cs m) = .error .discard) := by
  constructor
  · induction pre with
    | nil => simp [transformChildren, hct, hdisc]
    | cons p ps ih =>
      cases hr : (if p.isTree then transformTree h p else .ok p) with
      | ok v => simp [transformChildren, hr, ih]
      | error e => cases e <;> simp [transformChildren, hr, ih]
  · intro d cs rc m hcs hcall
    simp [transform, transformTree, hcs, hcall]

theorem C3_discard_semantics_witness :
    transformTree discardHolder (.tree "C" [] 0) = .error .discard ∧
    Value.isTree (.tree "C" [] 0) = true ∧
    transformChildren discardHolder
      ([.tree "B" [] 0] ++ (Value.tree "C" [] 0) :: [.tree "B" [] 1]) =
      transformChildren discardHolder ([.tree "B" [] 0] ++ [.tree "B" [] 1]) ∧
    transform discardHolder
      (.tree "A" [.tree "B" [] 0, .tree "C" [] 0, .tree "B" [] 1] 5) =
      .ok (.tree "A" [.leaf 7, .leaf 7] 5) ∧
    transform discardHolder (.tree "C" [] 0) = .error .discard :=
  ⟨by decide, rfl,
    (C3_discard_semantics discardHolder (.tree "C" [] 0)
      [.tree "B" [] 0] [.tree "B" [] 1] (by decide) rfl).1,
    by decide,
    (C3_discard_semantics discardHolder (.tree "C" [] 0) [] []
      (by decide) rfl).2 "C" [] [] 0 (by decide) (by decide)⟩

mutual

theorem iprTransformTree_fst : ∀ (h : Holder) (t : Value),
    (iprTransformTree h t).map Prod.fst = transformTree h t
  | h, .leaf _ => by simp [iprTransformTree, transformTree, Except.map]
  | h, .vlist _ => by simp [iprTransformTree, transformTree, Except.map]
  | h, .tree d cs m => by
    simp only [iprTransformTree, transformTree,
      ← iprTransformChildren_eq h cs]
    cases hc : iprTransformChildren h cs with
    | ok rc =>
      cases hcall : callUserfunc h d rc m <;> simp [hcall, Except.map]
    | error e => simp [Except.map]

theorem iprTransformChildren_eq : ∀ (h : Holder) (cs : List Value),
    iprTransformChildren h cs = transformChildren h cs
  | h, [] => by simp [iprTransformChildren, transformChildren]
  | h, c :: cs => by
    have hc := iprTransformTree_fst h c
    have htl := iprTransformChildren_eq h cs
    cases hct : c.isTree with
    | false => simp [iprTransformChildren, transformChildren, hct, htl]
    | true =>
      simp only [iprTransformChildren, transformChildren, hct, if_true, hc,
        htl]

end

/-- C8: In-place/copy equivalence: `Transformer_InPlaceRecursive.transform`
and `Transformer.transform` (same handlers) produce value-equal results —
in the model this holds for every tree, with or without discards — while
only the in-place variant additionally leaves the node's children field
mutated to the reduced values. -/
theorem C8_inplace_copy_equivalence (h : Holder) (d : String)
    (cs rc : List Value) (m : Nat) (r : Value)
    (hch : transformChildren h cs = .ok rc)
    (hcall : callUserfunc h d rc m = .ok r) :
    transform h (.tree d cs m) = .ok r ∧
    iprTransform h (.tree d cs m) = .ok (r, .tree d rc m) ∧
    (∀ t : Value, (iprTransform h t).map Prod.fst = transform h t) := by
  refine ⟨?_, ?_, fun t => ?_⟩
  · simp [transform, transformTree, hch, hcall]
  · simp [iprTransform, iprTransformTree, iprTransformChildren_eq, hch,
      hcall]
  · simpa [iprTransform, transform] using iprTransformTree_fst h t

theorem C8_inplace_copy_equivalence_witness :
    transformChildren discardHolder
      [Value.tree "B" [] 0, Value.tree "C" [] 0] = .ok [.leaf 7] ∧
    callUserfunc discardHolder "A" [Value.leaf 7] 3 =
      .ok (.tree "A" [.leaf 7] 3) ∧
    transform discardHolder
      (.tree "A" [.tree "B" [] 0, .tree "C" [] 0] 3) =
      .ok (.tree "A" [.leaf 7] 3) ∧
    iprTransform discardHolder
      (.tree "A" [.tree "B" [] 0, .tree "C" [] 0] 3) =
      .ok (.tree "A" [.leaf 7] 3, .tree "A" [.leaf 7] 3) :=
  ⟨by decide, by decide,
    (C8_inplace_copy_equivalence discardHolder "A" _ [Value.leaf 7] 3 _
      (by decide) (by decide)).1,
    (C8_inplace_copy_equivalence discardHolder "A" _ [Value.leaf 7] 3 _
      (by decide) (by decide)).2.1⟩

theorem postOrder_not_tree (c : Value) (hct : c.isTree = false) :
    postOrder c = [] := by
  cases c <;> simp [postOrder, Value.isTree] at hct ⊢

mutual

theorem transformTreeT_fst : ∀ (h : Holder) (t : Value),
    (transformTreeT h t).1 = transformTree h t
  | h, .leaf _ => by simp [transformTreeT, transformTree]
  | h, .vlist _ => by simp [transformTreeT, transformTree]
  | h, .tree d cs m => by
    have ih := transformChildrenT_fst h cs
    cases hc : transformChildrenT h cs with
    | mk r tr =>
      rw [hc] at ih
      simp only [transformTreeT, transformTree, hc, ← ih]
      cases r <;> simp

theorem transformChildrenT_fst : ∀ (h : Holder) (cs : List Value),
    (transformChildrenT h cs).1 = transformChildren h cs
  | h, [] => by simp [transformChildrenT, transformChildren]
  | h, c :: cs => by
    have hhd := transformTreeT_fst h c
    have htl := transformChildrenT_fst h cs
    cases hct : c.isTree with
    | false =>
      cases hts : transformChildrenT h cs with
      | mk r2 tr2 =>
        rw [hts] at htl
        simp only [transformChildrenT, transformChildren, hct, hts, ← htl]
        cases r2 <;> simp
    | true =>
      cases htt : transformTreeT h c with
      | mk r1 tr1 =>
        rw [htt] at hhd
        cases hts : transformChildrenT h cs with
        | mk r2 tr2 =>
          rw [hts] at htl
          simp only [transformChildrenT, transformChildren, hct, htt, hts,
            ← hhd, ← htl]
          cases r1 with
          | ok v => cases r2 <;> simp
          | error e => cases e <;> cases r2 <;> simp

end

mutual

theorem transformTreeT_trace : ∀ (h : Holder) (t : Value),
    List.Sublist (transformTreeT h t).2 (postOrder t)
  | h, .leaf _ => by simp [transformTreeT, postOrder]
  | h, .vlist _ => by simp [transformTreeT, postOrder]
  | h, .tree d cs m => by
    have ih := transformChildrenT_trace h cs
    cases hc : transformChildrenT h cs with
    | mk r tr =>
      rw [hc] at ih
      cases r with
      | ok rc =>
        simp only [transformTreeT, hc, postOrder]
        exact ih.append (List.Sublist.refl _)
      | error e =>
        simp only [transformTreeT, hc, postOrder]
        exact ih.trans (List.sublist_append_left _ _)

theorem transformChildrenT_trace : ∀ (h : Holder) (cs : List Value),
    List.Sublist (transformChildrenT h cs).2 (postOrderList cs)
  | h, [] => by simp [transformChildrenT, postOrderList]
  | h, c :: cs => by
    have ihc := transformTreeT_trace h c
    have iht := transformChildrenT_trace h cs
    cases hct : c.isTree with
    | false =>
      cases hts : transformChildrenT h cs with
      | mk r2 tr2 =>
        rw [hts] at iht
        simp only [transformChildrenT, hct, hts, postOrderList,
          postOrder_not_tree c hct, List.nil_append]
        cases r2 <;> simpa using iht
    | true =>
      cases htt : transformTreeT h c with
      | mk r1 tr1 =>
        rw [htt] at ihc
        cases hts : transformChildrenT h cs with
        | mk r2 tr2 =>
          rw [hts] at iht
          simp only [transformChildrenT, hct, htt, hts, postOrderList]
          cases r1 with
          | ok v => cases r2 <;> simpa using ihc.append iht
          | error e =>
            cases e <;> cases r2 <;>
              first
                | simpa using ihc.append iht
                | simpa using ihc.trans (List.sublist_append_left _ _)

end

/-- C10: the copy-producing bottom-up transform dispatches handlers only on
nodes of the original input tree: the dispatch trace of the instrumented
transform is a sublist of the post-order listing of the original tree's
nodes — so recursion descends solely into original children, each original
node is dispatched at most once per transform call, and a value returned by
a child's handler (even a tree) is never dispatched again — the
instrumentation agrees with the plain transform, and a child's successful
result is inserted into the parent's reduced children sequence as-is. -/
theorem C10_dispatch_original_only (h : Holder) (t c v : Value)
    (cs : List Value) (hok : transformTree h c = .ok v)
    (hct : c.isTree = true) :
    List.Sublist (transformTreeT h t).2 (postOrder t) ∧
    (transformTreeT h t).1 = transformTree h t ∧
    transformChildren h (c :: cs) =
      (match transformChildren h cs with
       | .ok vs => .ok (v :: vs)
       | .error e => .error e) := by
  refine ⟨transformTreeT_trace h t, transformTreeT_fst h t, ?_⟩
  simp [transformChildren, hct, hok]

theorem C10_dispatch_original_only_witness :
    transformTree treeReturnHolder (.tree "B" [] 0) =
      .ok (.tree "B" [.tree "B" [] 9] 9) ∧
    List.Sublist
      (transformTreeT treeReturnHolder (.tree "A" [.tree "B" [] 0] 1)).2
      (postOrder (.tree "A" [.tree "B" [] 0] 1)) ∧
    (transformTreeT treeReturnHolder (.tree "A" [.tree "B" [] 0] 1)).2 =
      [.tree "B" [] 0, .tree "A" [.tree "B" [] 0] 1] ∧
    transformChildren treeReturnHolder [Value.tree "B" [] 0] =
      .ok [.tree "B" [.tree "B" [] 9] 9] :=
  ⟨by decide,
    (C10_dispatch_original_only treeReturnHolder
      (.tree "A" [.tree "B" [] 0] 1) (.tree "B" [] 0)
      (.tree "B" [.tree "B" [] 9] 9) [] (by decide) rfl).1,
    by decide,
    ((C10_dispatch_original_only treeReturnHolder (.leaf 0)
      (.tree "B" [] 0) (.tree "B" [.tree "B" [] 9] 9) [] (by decide)
      rfl).2.2).trans (by decide)⟩

theorem find?_decorated (dec : Method → Method) (bn : List String)
    (own : List (String × Method)) (n : String) :
    (own.map (fun p =>
      if startsWithUnderscore p.1 || bn.contains p.1 then p
      else (p.1, dec p.2))).find? (fun p => p.1 == n) =
    (own.find? (fun p => p.1 == n)).map (fun p =>
      if startsWithUnderscore p.1 || bn.contains p.1 then p
      else (p.1, dec p.2)) := by
  rw [List.find?_map]
  have hcomp : ((fun q : String × Method => q.1 == n) ∘ fun q =>
      if startsWithUnderscore q.1 || bn.contains q.1 then q
      else (q.1, dec q.2)) = fun q : String × Method => q.1 == n := by
    funext q
    by_cases h : startsWithUnderscore q.1 = true ∨ q.1 ∈ bn <;> simp [h]
  rw [hcomp]

/-- C5 (amended): class-level decoration wraps exactly those members the
class defines directly whose names do not start with the internal-use
prefix and whose NAMES do not occur among the members of any base class in
the MRO — an override whose name exists on a base is skipped even when its
definition differs — and attribute resolution for every other name
(in particular every sibling method inherited unchanged) is untouched, so
no inherited member is ever re-wrapped. -/
theorem C5_class_decoration_by_name (dec : Method → Method) (c : PyClass)
    (n : String) :
    (clsApplyDecorator dec c).getattrM n =
      (match c.own.find? (fun p => p.1 == n) with
       | some p =>
         some (if startsWithUnderscore p.1 || c.baseNames.contains p.1
           then p.2 else dec p.2)
       | none => c.getattrM n) := by
  unfold clsApplyDecorator PyClass.getattrM
  rw [find?_decorated]
  cases hf : c.own.find? (fun p => p.1 == n) with
  | none => simp
  | some p =>
    by_cases hskip : startsWithUnderscore p.1 = true ∨ p.1 ∈ c.baseNames <;>
      simp [hskip]

/-- C5 counterexample: decorating a subclass that overrides an inherited
handler `foo` with a new definition.  The code skips `foo` because its NAME
occurs on a base class, leaving the class unchanged; the claim (skip only
members present with an identical definition in an ancestor) demands that
the overriding `foo` be wrapped, so the claimed rule disagrees with the
code on this class. -/
theorem C5_class_decoration_counterexample :
    clsApplyDecorator wrapSeq subClass ≠
      clsApplyDecoratorSpec wrapSeq subClass ∧
    clsApplyDecorator wrapSeq subClass = subClass ∧
    clsApplyDecoratorSpec wrapSeq subClass =
      ⟨[("foo", .wrapped false false (.base 2))], subClass.baseMembers⟩ := by
  refine ⟨by decide, by decide, by decide⟩

/-- C6: Top-down interpreter dispatch and descent: for every node whose tag
has no matching handler method on the holder, `visit` falls back to the
library default, which calls `visit_children` (never a silent no-op); and
`visit_children` visits, over any visit operation, each child that is a
`Tree` recursively and passes each leaf child through unchanged, in order —
equivalently it is the monadic map of per-child visiting in the
state-threading exception monad. -/
theorem C6_interpreter_dispatch {σ : Type} (I : Interp σ) (n : Nat)
    (d : String) (cs : List Value) (m : Nat) (s : σ)
    (hmiss : I.attrs d = none) :
    (I.visit (n + 1) (.tree d cs m) s =
      match I.visitChildren n (.tree d cs m) s with
      | .ok (rs, s1) => .ok (.vlist rs, s1)
      | .error e => .error e) ∧
    (∀ (v : Value → σ → Except Exc (Value × σ)) (cs2 : List Value) (s2 : σ),
      visitChildrenGo v cs2 s2 =
        (List.mapM (m := StateT σ (Except Exc))
          (fun c => if c.isTree then v c else pure c) cs2).run s2) := by
  constructor
  · simp [Interp.visit, Interp.visitChildren, hmiss]
  · intro v cs2 s2
    rw [← List.mapM'_eq_mapM]
    induction cs2 generalizing s2 with
    | nil => rfl
    | cons c cs2 ih =>
      rw [List.mapM'_cons]
      cases hct : c.isTree with
      | false =>
        simp only [visitChildrenGo, hct, Bool.false_eq_true, if_false,
          StateT.run_bind, StateT.run_pure, pure_bind]
        rw [← ih]
        cases visitChildrenGo v cs2 s2 <;> rfl
      | true =>
        simp only [visitChildrenGo, hct, if_true]
        show _ =
          Except.bind (v c s2) (fun p : Value × σ =>
            Except.bind ((List.mapM' (fun x : Value => if x.isTree then v x
                else pure x) cs2 :
                StateT σ (Except Exc) (List Value)).run p.2)
              (fun q : List Value × σ => Except.ok (p.1 :: q.1, q.2)))
        cases hv : v c s2 with
        | ok pr =>
          obtain ⟨r, s1⟩ := pr
          simp only [Except.bind]
          rw [← ih]
          cases visitChildrenGo v cs2 s1 with
          | ok q => obtain ⟨rs, s3⟩ := q; rfl
          | error e => rfl
        | error e => rfl

theorem C6_interpreter_dispatch_witness :
    Interp.visit emptyInterp 3 (.tree "a" [.leaf 1, .tree "b" [] 0] 2) () =
      .ok (.vlist [.leaf 1, .vlist []], ()) ∧
    visitChildrenGo (emptyInterp.visit 2) [Value.leaf 1, Value.tree "b" [] 0]
      () =
      (List.mapM (m := StateT Unit (Except Exc))
        (fun c => if c.isTree then emptyInterp.visit 2 c else pure c)
        [Value.leaf 1, Value.tree "b" [] 0]).run () :=
  ⟨((C6_interpreter_dispatch emptyInterp 2 "a"
      [Value.leaf 1, Value.tree "b" [] 0] 2 () rfl).1).trans (by decide),
    (C6_interpreter_dispatch emptyInterp 2 "a"
      [Value.leaf 1, Value.tree "b" [] 0] 2 () rfl).2
      (emptyInterp.visit 2) [Value.leaf 1, Value.tree "b" [] 0] ()⟩

/-- C7 counterexample: in the scenario of the claim — node `X` with children
`[Y, Z]`, the handler for `X` calling `visit_children` and returning only
the result for `Y` — the handler for `Z` IS invoked: `visit_children`
visits every child eagerly, so the Z-invocation counter (incremented only by
the `Z` handler) ends at 1, where the claim requires it to remain 0. -/
theorem C7_laziness_counterexample :
    Interp.visit cntInterp 3 xTree 0 = .ok (.leaf 1, 1) ∧ (1 : Nat) ≠ 0 :=
  ⟨by decide, by decide⟩

/-- C7 (amended): the top-down interpreter never descends on its own:
`visit` hands the node to the tag-named handler untouched, so a subtree's
handlers run only as a consequence of an ancestor's handler requesting
descent.  When the handler for `X` requests descent only into `Y` (instead
of calling `visit_children`, which visits every child), the `Z` handler is
never invoked: the Z-invocation counter stays 0. -/
theorem C7_lazy_selective_descent :
    Interp.visit lazyInterp 3 xTree 0 = .ok (.leaf 1, 0) ∧
    (∀ (σ : Type) (I : Interp σ) (n : Nat) (d : String) (cs : List Value)
      (m : Nat) (hh : IHandler σ) (s : σ), I.attrs d = some hh →
      I.visit (n + 1) (.tree d cs m) s = hh.run (I.visit n) (.tree d cs m) s)
    := by
  refine ⟨by decide, fun σ I n d cs m hh s hha => ?_⟩
  simp [Interp.visit, hha]

theorem C7_lazy_selective_descent_witness :
    Interp.visit lazyInterp 1 xTree 0 =
      xFirstChildHandler.run (Interp.visit lazyInterp 0) xTree 0 :=
  C7_lazy_selective_descent.2 Nat lazyInterp 0 "X"
    [.tree "Y" [] 0, .tree "Z" [] 0] 0 xFirstChildHandler 0 rfl
